import Mathlib

/-!
Verification of the signal-driven sampling pipeline of the cloud-profiler
Python agent's C++ extension. The definitions below are shallow embeddings of
the functions in `googlecloudprofiler/src/_profiler.cc`,
`googlecloudprofiler/src/profiler.cc`, `googlecloudprofiler/src/profiler.h`,
`googlecloudprofiler/src/stacktraces.h` and `clock.cc` / `clock.h`.
Machine integers are modelled as `Int`/`Nat` with explicit `% 2 ^ w` where
wrap-around matters; theorems that depend on no wrap occurring carry explicit
range hypotheses. The theorems settle the spec claims about this pipeline.
-/

set_option autoImplicit false

/-! ## Constants from clock.h, stacktraces.h, profiler.h -/

/-- Constant `kNanosPerSecond` from clock.h. -/
def kNanosPerSecond : Int := 1000 * 1000 * 1000

/-- Constant `kMicrosPerSecond` from clock.h. -/
def kMicrosPerSecond : Int := 1000 * 1000

/-- Constant `kNanosPerMilli` from clock.h. -/
def kNanosPerMilli : Int := 1000 * 1000

/-- Constant `kMaxStackTraces` from stacktraces.h: the fixed number of slots of
`AsyncSafeTraceMultiset`. -/
def kMaxStackTraces : Nat := 2048

/-- Constant `kMaxFramesToCapture` from stacktraces.h. -/
def kMaxFramesToCapture : Nat := 128

/-- Sentinel `kTraceCountLocked` from stacktraces.h, stored in a slot's `count`
while the slot is being updated or drained. -/
def kTraceCountLocked : Int := -1

/-- Enum value `kUnknown` of `CallTraceErrors` in stacktraces.h. -/
def kUnknown : Int := 0

/-- Enum value `kNoPyState` of `CallTraceErrors` in stacktraces.h. -/
def kNoPyState : Int := -1

/-! ## struct timespec and the helpers of clock.cc -/

/-- Embedding of `struct timespec`: a seconds field and a nanoseconds field,
both signed integers. -/
structure Timespec where
  tv_sec : Int
  tv_nsec : Int
deriving DecidableEq

/-- Total value of a timespec in nanoseconds (`tv_sec * 10^9 + tv_nsec`). This
is the abstraction function used to state numerical claims about the timespec
helpers; it is not itself part of the source. -/
def toNanos (t : Timespec) : Int := t.tv_sec * kNanosPerSecond + t.tv_nsec

/-- Embedding of `TimeAdd` from clock.cc. Note that the source normalizes the
nanosecond field only when it is strictly greater than `kNanosPerSecond`.
Both operands of the `/` and `%` are nonnegative whenever the branch is taken,
so Lean's Euclidean division agrees with C++ truncating division there. -/
def TimeAdd (t1 t2 : Timespec) : Timespec :=
  let t : Timespec := ⟨t1.tv_sec + t2.tv_sec, t1.tv_nsec + t2.tv_nsec⟩
  if t.tv_nsec > kNanosPerSecond then
    ⟨t.tv_sec + t.tv_nsec / kNanosPerSecond, t.tv_nsec % kNanosPerSecond⟩
  else
    t

/-- Embedding of `TimeLessThan` from clock.cc: lexicographic comparison of the
two fields. -/
def TimeLessThan (t1 t2 : Timespec) : Bool :=
  decide (t1.tv_sec < t2.tv_sec) ||
    (decide (t1.tv_sec = t2.tv_sec) && decide (t1.tv_nsec < t2.tv_nsec))

/-- Embedding of `NanosToTimeSpec` from clock.cc. For nonnegative `nanos` (the
only inputs the profiler passes) Euclidean and truncating division agree. -/
def NanosToTimeSpec (nanos : Int) : Timespec :=
  ⟨nanos / kNanosPerSecond, nanos % kNanosPerSecond⟩

/-! ## The period pipeline: ProfileCPU → CPUProfiler::Start →
SignalHandler::SetSigprofInterval -/

/-- Embedding of the period conversion done by `ProfileCPU` in _profiler.cc:
the second argument parsed from the Python call is named `period_msec` and the
`CPUProfiler` is constructed with `period_msec * kNanosPerMilli` nanoseconds.
The C++ multiplication is on `uint64_t`; for the argument ranges in the
theorems below no wrap occurs, so the embedding uses exact integers. -/
def profileCpuPeriodNanos (period_msec : Int) : Int :=
  period_msec * kNanosPerMilli

/-- Embedding of the conversion in `CPUProfiler::Start` in profiler.cc:
`int period_usec = period_nanos_ / 1000`. -/
def cpuProfilerStartPeriodUsec (period_nanos : Int) : Int :=
  period_nanos / 1000

/-- Embedding of the `itimerval` interval computed by
`SignalHandler::SetSigprofInterval` in profiler.cc: the pair
`(it_interval.tv_sec, it_interval.tv_usec)`. -/
def setSigprofIntervalTimer (period_usec : Int) : Int × Int :=
  (period_usec / kMicrosPerSecond, period_usec % kMicrosPerSecond)

/-- Total period, in microseconds of consumed CPU, of the interval timer that a
call `profile_cpu(duration_nanos, p)` arms: the composition of the three
conversion steps above, read back from the `itimerval` fields. -/
def armedPeriodMicros (p : Int) : Int :=
  let timer := setSigprofIntervalTimer (cpuProfilerStartPeriodUsec (profileCpuPeriodNanos p))
  timer.1 * kMicrosPerSecond + timer.2

/-! ## SignalHandler::SetAction, Profiler::Reset and the fatal/non-fatal error
split of CPUProfiler::Collect -/

/-- Observable outcome of `SignalHandler::SetAction` in profiler.cc. The
source installs the handler with `sigaction`; on failure it logs an error and
returns `old_handler`, on success it also returns `old_handler`. Either way the
same value is returned and no failure indication reaches the caller. -/
structure SetActionOutcome where
  handlerInstalled : Bool
  errorLogged : Bool
deriving DecidableEq

/-- Embedding of `SignalHandler::SetAction`, parameterized by whether the
underlying `sigaction` call succeeds. -/
def signalHandlerSetAction (sigactionOk : Bool) : SetActionOutcome :=
  { handlerInstalled := sigactionOk, errorLogged := !sigactionOk }

/-- Embedding of `Profiler::Reset` in profiler.cc as far as the signal setup is
concerned: it (re)installs the signal action and discards `SetAction`'s return
value; `Reset` itself returns `void` and cannot fail. -/
def profilerReset (sigactionOk : Bool) : SetActionOutcome :=
  signalHandlerSetAction sigactionOk

/-- Result of `CPUProfiler::Collect` as seen by the Python caller: either an
error (`nullptr` return) or a profile mapping. -/
inductive CollectResult where
  | error : CollectResult
  | profile : CollectResult
deriving DecidableEq

/-- Embedding of the error-propagation skeleton of `CPUProfiler::Collect` in
profiler.cc, parameterized by whether `sigaction` (inside `Reset`),
`setitimer` (inside `Start`), and the materialization in `PythonTraces`
(`PyDict_New`, `Py_BuildValue`, `PyLong_AsUnsignedLong`, `PyDict_SetItem`)
succeed. `Collect` first calls `Reset`, whose `SetAction` outcome is dropped;
it returns `nullptr` when `Start()` — i.e. `SetSigprofInterval`, i.e.
`setitimer` — fails, and otherwise runs the session and returns the result of
`PythonTraces()`, which is `nullptr` (an error to the caller) when
materialization fails. -/
def cpuProfilerCollect (sigactionOk setitimerOk pythonTracesOk : Bool) :
    CollectResult :=
  let _ := profilerReset sigactionOk
  if setitimerOk then
    if pythonTracesOk then CollectResult.profile else CollectResult.error
  else CollectResult.error

/-! ## Frames, traces and the signal handler body -/

/-- Embedding of `CallFrame` from stacktraces.h. `lineno` is a C `int`;
`py_code` is a `PyCodeObject *`, modelled as a natural number with `0` for
`nullptr`. -/
structure CallFrame where
  lineno : Int
  py_code : Nat
deriving DecidableEq

/-- Embedding of `FuncLoc` from profiler.h. -/
structure FuncLoc where
  name : String
  filename : String
deriving DecidableEq

/-- Embedding of the stack-capture part of `Profiler::Handle` in profiler.cc:
given the thread state returned by `get_thread_state_func` (`none` for a null
`PyThreadState *`, otherwise the thread's frame chain as a list of
`(f_lineno, f_code)` pairs), it produces the `CallTrace` that is passed to
`AsyncSafeTraceMultiset::Add`. A null thread state yields the single frame
`{lineno = kNoPyState, py_code = nullptr}`; otherwise the chain is walked up to
`kMaxFramesToCapture` frames. -/
def profilerHandleTrace (ts : Option (List CallFrame)) : List CallFrame :=
  match ts with
  | none => [{ lineno := kNoPyState, py_code := 0 }]
  | some chain => chain.take kMaxFramesToCapture

/-- Embedding of `CallTraceErrorToName` in profiler.cc: the `switch` maps
`kNoPyState` to `"[Unknown - No Python thread state]"` and everything else to
`"[Unknown]"`. -/
def CallTraceErrorToName (err : Int) : String :=
  if err = kNoPyState then "[Unknown - No Python thread state]" else "[Unknown]"

/-- Embedding of the per-frame `FuncLoc` resolution performed by
`Profiler::PythonTraces` in profiler.cc: a null `py_code` resolves through
`CallTraceErrorToName` applied to the frame's `lineno`; otherwise
`CodeDeallocHook::Find` (the code-death map, here a function
`dead : Nat → Option FuncLoc`) is consulted first and `GetFuncLoc` (the live
query, here `live : Nat → FuncLoc`) on a miss. -/
def resolveFuncLoc (dead : Nat → Option FuncLoc) (live : Nat → FuncLoc)
    (fr : CallFrame) : FuncLoc :=
  if fr.py_code = 0 then
    { name := CallTraceErrorToName fr.lineno, filename := "" }
  else
    match dead fr.py_code with
    | some fl => fl
    | none => live fr.py_code

/-- A materialized frame as built by `Py_BuildValue("(ssi)", ...)` in
`Profiler::PythonTraces`: the resolved name, the resolved filename and the
sampled line number. -/
def resolvedFrame (dead : Nat → Option FuncLoc) (live : Nat → FuncLoc)
    (fr : CallFrame) : String × String × Int :=
  let fl := resolveFuncLoc dead live fr
  (fl.name, fl.filename, fr.lineno)

/-! ## AsyncSafeTraceMultiset: hash, equality and the sequential semantics of
Add / Extract / HarvestSamples from _profiler.cc -/

/-- Reduction modulo `2 ^ 64`, the wrap-around of the C++ `uint64_t`
arithmetic in `CalculateHash`. -/
def u64 (n : Nat) : Nat := n % 2 ^ 64

/-- Per-frame mixing step of `CalculateHash` in _profiler.cc: add the line
number (cast through `uintptr_t`, i.e. sign-extended and wrapped to 64 bits),
then `h += h << 10; h ^= h >> 6`, then the same with the code pointer. -/
def hashFrameStep (h : Nat) (fr : CallFrame) : Nat :=
  let h := u64 (h + (fr.lineno.emod (2 ^ 64)).toNat)
  let h := u64 (h + h * 2 ^ 10)
  let h := h ^^^ (h / 2 ^ 6)
  let h := u64 (h + u64 fr.py_code)
  let h := u64 (h + h * 2 ^ 10)
  let h := h ^^^ (h / 2 ^ 6)
  h

/-- Embedding of `CalculateHash` in _profiler.cc: fold the per-frame step over
the frames starting from `0`, then finish with `h += h << 3; h ^= h >> 11`. -/
def CalculateHash (frames : List CallFrame) : Nat :=
  let h := frames.foldl hashFrameStep 0
  let h := u64 (h + h * 2 ^ 3)
  h ^^^ (h / 2 ^ 11)

/-- Embedding of `Equal` in _profiler.cc, specialized to two frame sequences
of the same length: pairwise comparison of `lineno` and `py_code`. The source
is only ever called with `num_frames` valid in both arrays; a length mismatch
(unreachable from the callers, which compare lengths first) yields `false`
here. -/
def framesEqual : List CallFrame → List CallFrame → Bool
  | [], [] => true
  | a :: as, b :: bs =>
    (decide (a.lineno = b.lineno) && decide (a.py_code = b.py_code)) &&
      framesEqual as bs
  | _, _ => false

/-- The trace comparison performed by `AsyncSafeTraceMultiset::Add` (and by
`TraceMultiset`'s `TraceEqual`): equal frame counts and `Equal` on the
frames. -/
def tracesMatch (t1 t2 : List CallFrame) : Bool :=
  decide (t1.length = t2.length) && framesEqual t1 t2

/-- One slot (`struct TraceData`) of the `AsyncSafeTraceMultiset`: the atomic
`count` and the frame buffer together with the stored frame count, modelled as
a list. (`active_updates` only matters under concurrency and is treated in the
transition-system model below.) -/
structure TraceData where
  count : Int
  frames : List CallFrame
deriving DecidableEq

/-- The slot array of the `AsyncSafeTraceMultiset`: `kMaxStackTraces` slots. -/
abbrev ASMState : Type := Fin kMaxStackTraces → TraceData

/-- The state established by `AsyncSafeTraceMultiset::Reset` (`memset` to
zero): every slot has `count = 0` and an empty trace. -/
def asmEmpty : ASMState := fun _ => { count := 0, frames := [] }

/-- The probe position for attempt `j` of `AsyncSafeTraceMultiset::Add`:
`idx = (j + hash_val) % kMaxStackTraces`. -/
def probeIdx (hashVal : Nat) (j : Nat) : Fin kMaxStackTraces :=
  ⟨(j + hashVal) % kMaxStackTraces, Nat.mod_lt _ (by decide)⟩

/-- The probe sequence of `AsyncSafeTraceMultiset::Add`: positions for
`j = 0 .. kMaxStackTraces - 1`. -/
def probeList (hashVal : Nat) : List (Fin kMaxStackTraces) :=
  (List.range kMaxStackTraces).map (probeIdx hashVal)

/-- Sequential semantics of the probe loop of `AsyncSafeTraceMultiset::Add` in
_profiler.cc. In a single-threaded execution every `compare_exchange_weak`
whose expected value equals the current value succeeds and loads are stable,
so the loop body collapses to: an unused slot (`count == 0`) is claimed and
published with count 1 and a copy of the trace; a locked slot is skipped; a
published slot whose stored trace equals the new trace has its count bumped;
any other published slot is skipped. Returns the `Add` result and the new
state. -/
def addLoop (t : List CallFrame) (s : ASMState) :
    List (Fin kMaxStackTraces) → Bool × ASMState
  | [] => (false, s)
  | idx :: rest =>
    let e := s idx
    if e.count = 0 then
      (true, Function.update s idx { count := 1, frames := t })
    else if e.count = kTraceCountLocked then
      addLoop t s rest
    else if tracesMatch t e.frames then
      (true, Function.update s idx { e with count := e.count + 1 })
    else
      addLoop t s rest

/-- Sequential semantics of `AsyncSafeTraceMultiset::Add`: probe the slots in
the order determined by the trace's hash. -/
def asmAdd (s : ASMState) (t : List CallFrame) : Bool × ASMState :=
  addLoop t s (probeList (CalculateHash t))

/-- Result of `AsyncSafeTraceMultiset::Extract`: the returned frame count, the
frames written to the caller's buffer (`[]` when nothing is written), the
value written through the `count` out-parameter (`none` when it is not
written), and the multiset state after the call. -/
structure ExtractResult where
  ret : Int
  framesOut : List CallFrame
  countOut : Option Int
  state : ASMState

/-- Sequential semantics of `AsyncSafeTraceMultiset::Extract` in _profiler.cc:
an out-of-range location returns 0 immediately; a slot with `count <= 0`
returns 0; otherwise up to `max_frames` frames are copied out, the previous
count is written through the out-parameter, and the slot's count is released
to 0 (the frame buffer itself is not cleared). -/
def asmExtract (s : ASMState) (location : Int) (maxFrames : Int) :
    ExtractResult :=
  if h : location < 0 ∨ (kMaxStackTraces : Int) ≤ location then
    ⟨0, [], none, s⟩
  else
    let idx : Fin kMaxStackTraces := ⟨location.toNat, by omega⟩
    let e := s idx
    if e.count ≤ 0 then
      ⟨0, [], none, s⟩
    else
      let nf : Int :=
        if (e.frames.length : Int) > maxFrames then maxFrames
        else (e.frames.length : Int)
      ⟨nf, e.frames.take nf.toNat, some e.count,
        Function.update s idx { e with count := 0 }⟩

/-- The growable `TraceMultiset` from stacktraces.h, modelled as an
association list from a frame list to its accumulated count (the
`unordered_map` with `TraceHash` / `TraceEqual`). -/
abbrev TraceMultiset : Type := List (List CallFrame × Int)

/-- Embedding of `TraceMultiset::Add` in _profiler.cc: if a key-equal trace is
present its count is incremented, otherwise the trace is inserted with the
given count. -/
def tmAdd (tm : TraceMultiset) (t : List CallFrame) (c : Int) : TraceMultiset :=
  match tm with
  | [] => [(t, c)]
  | (t', c') :: rest =>
    if tracesMatch t' t then (t', c' + c) :: rest
    else (t', c') :: tmAdd rest t c

/-- The loop of `HarvestSamples` in _profiler.cc over a given list of slot
indices: extract each slot with `max_frames = kMaxFramesToCapture` and add the
result to the `TraceMultiset` when a positive frame count and a positive count
came back. -/
def harvestLoop (s : ASMState) (tm : TraceMultiset) :
    List Nat → TraceMultiset × ASMState
  | [] => (tm, s)
  | i :: rest =>
    let r := asmExtract s (i : Int) (kMaxFramesToCapture : Int)
    if 0 < r.ret ∧ 0 < r.countOut.getD 0 then
      harvestLoop r.state (tmAdd tm r.framesOut (r.countOut.getD 0)) rest
    else
      harvestLoop r.state tm rest

/-- Embedding of `HarvestSamples` in _profiler.cc: drain every slot,
`i = 0 .. MaxEntries() - 1`, into the growable multiset. -/
def HarvestSamples (s : ASMState) (tm : TraceMultiset) :
    TraceMultiset × ASMState :=
  harvestLoop s tm (List.range kMaxStackTraces)

/-- Iterated sequential `Add` of the same trace, as performed by `k`
successive signal-handler invocations sampling an identical stack: returns the
conjunction of all the `Add` results and the final state. -/
def addRepeat (s : ASMState) (t : List CallFrame) : Nat → Bool × ASMState
  | 0 => (true, s)
  | k + 1 =>
    let r := asmAdd s t
    let r2 := addRepeat r.2 t k
    (r.1 && r2.1, r2.2)

/-- One signal-handler invocation (`Profiler::Handle`) at the point where the
trace has been captured: `Add` the trace and, when `Add` returns false,
increment `unknown_stack_count_` by one. The pair is (multiset state,
`unknown_stack_count_`). -/
def handleAdd (st : ASMState × Nat) (t : List CallFrame) : ASMState × Nat :=
  let r := asmAdd st.1 t
  if r.1 then (r.2, st.2) else (r.2, st.2 + 1)

/-- A sequence of signal-handler invocations, one `handleAdd` per captured
trace. -/
def runHandlers (st : ASMState × Nat) : List (List CallFrame) → ASMState × Nat
  | [] => st
  | t :: ts => runHandlers (handleAdd st t) ts

/-- The set of occupied slots of a sequential multiset state (those with
nonzero count). Used to express the capacity argument for claim C7; not
itself part of the source. -/
def occupied (s : ASMState) : Finset (Fin kMaxStackTraces) :=
  Finset.univ.filter (fun i => (s i).count ≠ 0)

/-! ## Materialization: Profiler::PythonTraces -/

/-- A materialized trace key: the tuple of `(name, filename, line)` triples
built by `Profiler::PythonTraces`. -/
abbrev ResolvedTrace : Type := List (String × String × Int)

/-- The result dictionary built by `Profiler::PythonTraces`, modelled as an
association list keyed by resolved traces. -/
abbrev TraceDict : Type := List (ResolvedTrace × Int)

/-- Embedding of the `PyDict` update in `Profiler::PythonTraces`: if the key
is already present, the new count is added to the previous one
(`count += previous_count` followed by `PyDict_SetItem`), otherwise the key is
inserted. -/
def dictAdd (d : TraceDict) (k : ResolvedTrace) (c : Int) : TraceDict :=
  match d with
  | [] => [(k, c)]
  | (k', c') :: rest =>
    if k' = k then (k', c' + c) :: rest else (k', c') :: dictAdd rest k c

/-- Lookup in the materialized dictionary. -/
def dictLookup (d : TraceDict) (k : ResolvedTrace) : Option Int :=
  match d with
  | [] => none
  | (k', c') :: rest => if k' = k then some c' else dictLookup rest k

/-- Embedding of `Profiler::PythonTraces` in profiler.cc: if
`unknown_stack_count_ > 0` a synthetic single-frame trace
`{lineno = kUnknown, py_code = nullptr}` with that count is first added to the
aggregated multiset; then every aggregated trace is resolved frame-by-frame
and inserted into the result dictionary with count merging. -/
def PythonTraces (dead : Nat → Option FuncLoc) (live : Nat → FuncLoc)
    (ucount : Int) (tm : TraceMultiset) : TraceDict :=
  let tm' :=
    if 0 < ucount then tmAdd tm [{ lineno := kUnknown, py_code := 0 }] ucount
    else tm
  tm'.foldl (fun d tc => dictAdd d (tc.1.map (resolvedFrame dead live)) tc.2) []

/-! ## Concurrent transition system on the slot counts

Claim C4 is about arbitrary interleavings of `Add` (many signal-handler
writers) and `Extract` (one drainer). Each constructor below is one atomic
operation on a slot's `count` field from _profiler.cc, with the guard under
which the source performs it; the relation deliberately forgets which thread
holds a reservation (an over-approximation: every real interleaving is a
sequence of these steps, so an invariant proved over this relation holds of
every real interleaving). -/

/-- The `count` fields of all slots, the only state claim C4 constrains. -/
abbrev CountState : Type := Fin kMaxStackTraces → Int

/-- One atomic transition on a slot count:
`addLock` is `Add`'s `compare_exchange_weak(count_zero, kTraceCountLocked)`,
`addPublish` is `Add`'s `count.store(1)` after filling the frame buffer,
`addBump` is `Add`'s `compare_exchange_weak(count, count + 1)` guarded by the
reloaded value not being `kTraceCountLocked`,
`extractExchange` is `Extract`'s unconditional
`count.exchange(kTraceCountLocked)`, and
`extractRelease` is `Extract`'s final `count.store(0)` (performed while the
drainer holds the reservation, hence the `kTraceCountLocked` guard). -/
inductive AsmCountStep : CountState → CountState → Prop where
  | addLock (s : CountState) (i : Fin kMaxStackTraces) :
      s i = 0 → AsmCountStep s (Function.update s i kTraceCountLocked)
  | addPublish (s : CountState) (i : Fin kMaxStackTraces) :
      s i = kTraceCountLocked → AsmCountStep s (Function.update s i 1)
  | addBump (s : CountState) (i : Fin kMaxStackTraces) (c : Int) :
      s i = c → c ≠ kTraceCountLocked →
      AsmCountStep s (Function.update s i (c + 1))
  | extractExchange (s : CountState) (i : Fin kMaxStackTraces) :
      AsmCountStep s (Function.update s i kTraceCountLocked)
  | extractRelease (s : CountState) (i : Fin kMaxStackTraces) :
      s i = kTraceCountLocked → AsmCountStep s (Function.update s i 0)

/-- States reachable from the reset state (all counts zero) by any
interleaving of the atomic steps. -/
inductive AsmReachable : CountState → Prop where
  | init : AsmReachable (fun _ => 0)
  | step {s s' : CountState} :
      AsmReachable s → AsmCountStep s s' → AsmReachable s'

/-! ## CPUProfiler::Collect harvest-loop timing -/

/-- Observable actions of the driver thread during
`CPUProfiler::Collect` between `Start()` and `PythonTraces()`. -/
inductive CollectEvent where
  | sleepFor : Timespec → CollectEvent
  | flush : CollectEvent
  | sleepUntil : Timespec → CollectEvent
  | stopTimer : CollectEvent
deriving DecidableEq

/-- The `flush_interval` constant of `CPUProfiler::Collect`: 100 ms. -/
def flushInterval : Timespec := ⟨0, 100 * 1000 * 1000⟩

/-- Embedding of `AlmostThere` in profiler.cc: with `margin_laps = 2`, it
builds `laps = {lap.tv_sec * 2, lap.tv_nsec * 2}` (not renormalized) and
returns `TimeLessThan(finish, TimeAdd(now, laps))`. -/
def AlmostThere (finish lap now : Timespec) : Bool :=
  TimeLessThan finish (TimeAdd now ⟨lap.tv_sec * 2, lap.tv_nsec * 2⟩)

/-- The harvest loop of `CPUProfiler::Collect` under an idealized monotonic
clock in which `SleepFor(lap)` advances `Now()` by exactly `lap`: while
`AlmostThere` is false, sleep one lap and flush. `fuel` bounds the number of
iterations so the recursion is structural; the theorems below supply enough
fuel for the loop to reach its exit condition. -/
def harvestLoopEvents (finish lap : Timespec) : Nat → Timespec → List CollectEvent
  | 0, _ => []
  | fuel + 1, now =>
    if AlmostThere finish lap now then []
    else
      CollectEvent.sleepFor lap :: CollectEvent.flush ::
        harvestLoopEvents finish lap fuel (TimeAdd now lap)

/-- The event trace of `CPUProfiler::Collect` from `Start()` to the final
`Flush()`: `finish_line = TimeAdd(Now(), NanosToTimeSpec(duration_nanos))`,
then the harvest loop, then `SleepUntil(finish_line)`, `Stop()` (disarm the
timer), `SleepUntil(finish_line + flush_interval)` and a last `Flush()`. -/
def collectEvents (fuel : Nat) (now : Timespec) (durationNanos : Int) :
    List CollectEvent :=
  let finish := TimeAdd now (NanosToTimeSpec durationNanos)
  harvestLoopEvents finish flushInterval fuel now ++
    [CollectEvent.sleepUntil finish, CollectEvent.stopTimer,
      CollectEvent.sleepUntil (TimeAdd finish flushInterval),
      CollectEvent.flush]

/-- The event pattern the harvest loop is claimed to produce: `n` repetitions
of (sleep one flush interval; flush). -/
def harvestPattern (n : Nat) (lap : Timespec) : List CollectEvent :=
  (List.replicate n [CollectEvent.sleepFor lap, CollectEvent.flush]).flatten

/-! ## Theorems: C10 (TimeAdd), C1 (period units), C2 (signal-install
failure), C3 (null host state) -/

/-- Total-value preservation of `TimeAdd`: holds for all inputs, because the
normalization branch redistributes `tv_nsec` into `tv_sec` without changing
the total. -/
theorem TimeAdd_toNanos (t1 t2 : Timespec) :
    toNanos (TimeAdd t1 t2) = toNanos t1 + toNanos t2 := by
  unfold TimeAdd toNanos kNanosPerSecond
  dsimp only
  split
  · dsimp only
    omega
  · dsimp only
    ring

/-- Claim C10, counterexample: for the inputs `{0, 5*10^8}` and `{0, 5*10^8}`
— both with nonnegative fields and `tv_nsec` in `[0, 10^9)` — the result of
`TimeAdd` has `tv_nsec = 10^9`, which is not in `[0, 10^9)`. The source
normalizes only when the nanosecond sum is strictly greater than
`kNanosPerSecond`, so a sum of exactly `10^9` is left unnormalized. -/
theorem timeAdd_nsec_range_counterexample :
    (0 : Int) ≤ (500000000 : Int) ∧ (500000000 : Int) < 1000000000 ∧
      (TimeAdd ⟨0, 500000000⟩ ⟨0, 500000000⟩).tv_nsec = 1000000000 ∧
      ¬ (TimeAdd ⟨0, 500000000⟩ ⟨0, 500000000⟩).tv_nsec < 1000000000 := by
  refine ⟨by norm_num, by norm_num, ?_, ?_⟩ <;> decide

/-- Claim C10, amended: for timespecs with nonnegative fields and `tv_nsec` in
`[0, 10^9)`, `TimeAdd` preserves the exact total in nanoseconds, and the
result's `tv_nsec` lies in `[0, 10^9]` — the upper bound `10^9` itself is
reached (exactly when the two nanosecond fields sum to exactly `10^9`), so the
half-open interval `[0, 10^9)` of the original claim must be widened to the
closed interval. -/
theorem timeAdd_exact_sum_and_nsec_bounds (t1 t2 : Timespec)
    (h1s : 0 ≤ t1.tv_sec) (h2s : 0 ≤ t2.tv_sec)
    (h1n : 0 ≤ t1.tv_nsec) (h1n' : t1.tv_nsec < 1000000000)
    (h2n : 0 ≤ t2.tv_nsec) (h2n' : t2.tv_nsec < 1000000000) :
    toNanos (TimeAdd t1 t2) = toNanos t1 + toNanos t2 ∧
      0 ≤ (TimeAdd t1 t2).tv_nsec ∧ (TimeAdd t1 t2).tv_nsec ≤ 1000000000 := by
  refine ⟨TimeAdd_toNanos t1 t2, ?_, ?_⟩ <;>
    · unfold TimeAdd kNanosPerSecond
      dsimp only
      split <;> dsimp only <;> omega

/-- Witness for `timeAdd_exact_sum_and_nsec_bounds` at the concrete inputs
`{1, 600000000}` and `{2, 700000000}`. -/
theorem timeAdd_exact_sum_and_nsec_bounds_witness :
    toNanos (TimeAdd ⟨1, 600000000⟩ ⟨2, 700000000⟩) =
        toNanos ⟨1, 600000000⟩ + toNanos ⟨2, 700000000⟩ ∧
      0 ≤ (TimeAdd ⟨1, 600000000⟩ ⟨2, 700000000⟩).tv_nsec ∧
      (TimeAdd ⟨1, 600000000⟩ ⟨2, 700000000⟩).tv_nsec ≤ 1000000000 :=
  timeAdd_exact_sum_and_nsec_bounds ⟨1, 600000000⟩ ⟨2, 700000000⟩
    (by norm_num) (by norm_num) (by norm_num) (by norm_num) (by norm_num)
    (by norm_num)

/-- Claim C1, counterexample: calling `profile_cpu(duration_nanos, 1)` arms the
interval timer with a period of `1000` microseconds, not `1` microsecond. The
second argument of `profile_cpu` is parsed into a variable named `period_msec`
and multiplied by `kNanosPerMilli`, so it is a count of milliseconds. -/
theorem profile_cpu_period_counterexample :
    armedPeriodMicros 1 = 1000 ∧ armedPeriodMicros 1 ≠ 1 := by
  constructor <;> decide

/-- Claim C1, amended: for every call `profile_cpu(duration_nanos, p)` with
`0 < p` (and `p` small enough that neither the `uint64_t` multiplication nor
the narrowing to C `int` in `CPUProfiler::Start` wraps, i.e.
`p * 1000 < 2^31`), the CPU-time interval timer is armed with a period of
exactly `p * 1000` microseconds of consumed CPU: the second argument is a
count of milliseconds between profiling signals, not microseconds. -/
theorem profile_cpu_period_is_milliseconds (p : Int) (hp : 0 < p)
    (hsmall : p * 1000 < 2 ^ 31) :
    armedPeriodMicros p = p * 1000 := by
  have h6 : profileCpuPeriodNanos p = p * 1000000 := by
    unfold profileCpuPeriodNanos kNanosPerMilli
    ring
  have husec : cpuProfilerStartPeriodUsec (profileCpuPeriodNanos p) = p * 1000 := by
    rw [h6]
    unfold cpuProfilerStartPeriodUsec
    have : p * 1000000 = (p * 1000) * 1000 := by ring
    rw [this]
    exact Int.mul_ediv_cancel _ (by norm_num)
  unfold armedPeriodMicros
  rw [husec]
  unfold setSigprofIntervalTimer kMicrosPerSecond
  dsimp only
  omega

/-- Witness for `profile_cpu_period_is_milliseconds` at `p = 10` (the default
sampling period of the agent, 10 ms): the timer is armed with a period of
`10000` microseconds. -/
theorem profile_cpu_period_is_milliseconds_witness :
    armedPeriodMicros 10 = 10 * 1000 :=
  profile_cpu_period_is_milliseconds 10 (by norm_num) (by norm_num)

/-- Claim C2, counterexample: in a run where installing the SIGPROF handler
fails (`sigactionOk = false`) but the timer arms and materialization
succeeds, `Collect` returns a profile rather than an error — `SetAction` only
logs the failure and `Profiler::Reset` discards its return value, so the
session is not aborted. -/
theorem collect_sigaction_failure_counterexample :
    cpuProfilerCollect false true true = CollectResult.profile ∧
      cpuProfilerCollect false true true ≠ CollectResult.error := by
  constructor <;> decide

/-- Claim C2, amended: a failure to install the handler for the profiling
signal is not fatal to the session — the failure is logged inside `SetAction`
and `Collect` proceeds to collect samples instead of returning an error,
yielding exactly the outcome it would have yielded had installation
succeeded (that outcome is decided by the timer arming and by
materialization, which can still abort the session). -/
theorem collect_sigaction_failure_not_fatal
    (sigactionOk setitimerOk pythonTracesOk : Bool) :
    cpuProfilerCollect sigactionOk setitimerOk pythonTracesOk =
      cpuProfilerCollect true setitimerOk pythonTracesOk ∧
      (profilerReset sigactionOk).errorLogged = !sigactionOk := by
  exact ⟨rfl, rfl⟩

/-- Claim C3, counterexample: the synthetic `FuncLoc` substituted for a frame
whose `lineno` carries the `kNoPyState` sentinel has name
`"[Unknown - No Python thread state]"`, not `"[Unknown - No Host State]"` as
the claim states. The handler part of the claim (exactly one frame with null
code and line `-1`) does hold, as shown by the first conjunct. -/
theorem no_host_state_name_counterexample :
    profilerHandleTrace none = [{ lineno := -1, py_code := 0 }] ∧
      resolveFuncLoc (fun _ => none) (fun _ => ⟨"f", "g"⟩)
          { lineno := -1, py_code := 0 } =
        { name := "[Unknown - No Python thread state]", filename := "" } ∧
      resolveFuncLoc (fun _ => none) (fun _ => ⟨"f", "g"⟩)
          { lineno := -1, py_code := 0 } ≠
        { name := "[Unknown - No Host State]", filename := "" } := by
  refine ⟨rfl, rfl, ?_⟩
  decide

/-- Claim C3, amended: a handler invocation on a thread whose
`PyThreadState *` getter returns null records exactly one frame with null
`py_code` and `lineno = kNoPyState` (−1), and materialization resolves that
frame to the synthetic `FuncLoc`
`{name := "[Unknown - No Python thread state]", filename := ""}` — the same
shape as the claim but with the name string the source actually uses. This
holds for every code-death map and every live-resolution function. -/
theorem no_host_state_trace_and_resolution
    (dead : Nat → Option FuncLoc) (live : Nat → FuncLoc) :
    profilerHandleTrace none = [{ lineno := kNoPyState, py_code := 0 }] ∧
      resolveFuncLoc dead live { lineno := kNoPyState, py_code := 0 } =
        { name := "[Unknown - No Python thread state]", filename := "" } := by
  exact ⟨rfl, rfl⟩

/-! ## Basic lemmas about trace equality -/

/-- The comparison `AsyncSafeTraceMultiset::Add` performs (length equality
plus `Equal`) holds exactly when the two frame lists are equal. -/
theorem tracesMatch_iff (t1 t2 : List CallFrame) :
    tracesMatch t1 t2 = true ↔ t1 = t2 := by
  induction t1 generalizing t2 with
  | nil => cases t2 <;> simp [tracesMatch, framesEqual]
  | cons a as ih =>
    cases t2 with
    | nil => simp [tracesMatch, framesEqual]
    | cons b bs =>
      have h := ih bs
      simp only [tracesMatch, framesEqual, Bool.and_eq_true, decide_eq_true_eq,
        List.length_cons] at h ⊢
      constructor
      · rintro ⟨hlen, ⟨⟨hl, hc⟩, hfe⟩⟩
        have hab : as = bs := h.mp ⟨by omega, hfe⟩
        cases a; cases b
        simp_all
      · intro heq
        injection heq with h1 h2
        subst h1
        subst h2
        exact ⟨rfl, ⟨⟨rfl, rfl⟩, (h.mpr rfl).2⟩⟩

/-- Reflexivity of the trace comparison. -/
theorem tracesMatch_refl (t : List CallFrame) : tracesMatch t t = true :=
  (tracesMatch_iff t t).mpr rfl

/-- Distinct traces never match. -/
theorem tracesMatch_ne {t1 t2 : List CallFrame} (h : t1 ≠ t2) :
    tracesMatch t1 t2 = false := by
  cases hb : tracesMatch t1 t2
  · rfl
  · exact absurd ((tracesMatch_iff t1 t2).mp hb) h

/-! ## Claim C9: Extract on an out-of-range location -/

/-- Claim C9: for every location outside `[0, kMaxStackTraces)` and every
`max_frames`, `Extract` returns 0, writes neither the frame buffer nor the
count out-parameter, and leaves every slot of the multiset unchanged. -/
theorem extract_out_of_range (s : ASMState) (location maxFrames : Int)
    (h : location < 0 ∨ (kMaxStackTraces : Int) ≤ location) :
    asmExtract s location maxFrames = ⟨0, [], none, s⟩ := by
  unfold asmExtract
  rw [dif_pos h]

/-- Witness for `extract_out_of_range` at `location = -3` (and, separately,
`location = 2048`) on the reset state with `max_frames = 128`. -/
theorem extract_out_of_range_witness :
    ((-3 : Int) < 0 ∨ (kMaxStackTraces : Int) ≤ -3) ∧
      asmExtract asmEmpty (-3) 128 = ⟨0, [], none, asmEmpty⟩ ∧
      asmExtract asmEmpty 2048 128 = ⟨0, [], none, asmEmpty⟩ :=
  ⟨Or.inl (by norm_num),
    extract_out_of_range asmEmpty (-3) 128 (Or.inl (by norm_num)),
    extract_out_of_range asmEmpty 2048 128 (Or.inr (by norm_num [kMaxStackTraces]))⟩

/-! ## Claim C4: the slot-count invariant under concurrency -/

/-- Claim C4: in every state reachable by any interleaving of `Add` steps and
`Extract` steps from the reset state, every slot count is 0 (unused),
`kTraceCountLocked` (reserved) or strictly positive. -/
theorem asm_count_in_range (s : CountState) (h : AsmReachable s) :
    ∀ i : Fin kMaxStackTraces,
      s i = 0 ∨ s i = kTraceCountLocked ∨ 0 < s i := by
  induction h with
  | init => intro i; exact Or.inl rfl
  | step _ hstep ih =>
    intro i
    cases hstep with
    | addLock j hj =>
      rw [Function.update_apply]
      split
      · exact Or.inr (Or.inl rfl)
      · exact ih i
    | addPublish j hj =>
      rw [Function.update_apply]
      split
      · exact Or.inr (Or.inr (by norm_num))
      · exact ih i
    | addBump j c hc hne =>
      rw [Function.update_apply]
      split
      · rcases ih j with h0 | hl | hp
        · rw [hc] at h0
          exact Or.inr (Or.inr (by omega))
        · rw [hc] at hl
          exact absurd hl hne
        · rw [hc] at hp
          exact Or.inr (Or.inr (by omega))
      · exact ih i
    | extractExchange j =>
      rw [Function.update_apply]
      split
      · exact Or.inr (Or.inl rfl)
      · exact ih i
    | extractRelease j hj =>
      rw [Function.update_apply]
      split
      · exact Or.inl rfl
      · exact ih i

/-- Witness for `asm_count_in_range` at the reset state (reachable by
`AsmReachable.init`) and slot 0. -/
theorem asm_count_in_range_witness :
    (fun _ : Fin kMaxStackTraces => (0 : Int)) ⟨0, by decide⟩ = 0 ∨
      (fun _ : Fin kMaxStackTraces => (0 : Int)) ⟨0, by decide⟩ =
        kTraceCountLocked ∨
      0 < (fun _ : Fin kMaxStackTraces => (0 : Int)) ⟨0, by decide⟩ :=
  asm_count_in_range (fun _ => 0) AsmReachable.init ⟨0, by decide⟩

/-! ## Claim C6: Extract on a published slot -/

/-- Unfolding of `asmExtract` at an in-range location given as a `Fin`. -/
theorem asmExtract_in_range (s : ASMState) (idx : Fin kMaxStackTraces)
    (maxFrames : Int) :
    asmExtract s (idx : Int) maxFrames =
      (if (s idx).count ≤ 0 then ⟨0, [], none, s⟩
       else
         let nf : Int :=
           if ((s idx).frames.length : Int) > maxFrames then maxFrames
           else ((s idx).frames.length : Int)
         ⟨nf, (s idx).frames.take nf.toNat, some (s idx).count,
           Function.update s idx { s idx with count := 0 }⟩) := by
  unfold asmExtract
  rw [dif_neg]
  · simp only [Int.toNat_natCast, Fin.eta]
  · push_neg
    refine ⟨by positivity, ?_⟩
    exact_mod_cast idx.isLt

/-- One unfolding step of the `Add` probe loop at a cons cell. -/
theorem addLoop_cons (t : List CallFrame) (s : ASMState)
    (idx : Fin kMaxStackTraces) (rest : List (Fin kMaxStackTraces)) :
    addLoop t s (idx :: rest) =
      (if (s idx).count = 0 then
        (true, Function.update s idx { count := 1, frames := t })
      else if (s idx).count = kTraceCountLocked then addLoop t s rest
      else if tracesMatch t (s idx).frames then
        (true, Function.update s idx
          { s idx with count := (s idx).count + 1 })
      else addLoop t s rest) := rfl

/-- The probe loop at the empty list: all probes exhausted, `Add` fails. -/
theorem addLoop_nil (t : List CallFrame) (s : ASMState) :
    addLoop t s [] = (false, s) := rfl

/-- The probe sequence starts at slot `hash % kMaxStackTraces`. -/
theorem probeList_eq_cons (h : Nat) :
    probeList h =
      probeIdx h 0 :: (List.range 2047).map (fun j => probeIdx h (j + 1)) := by
  unfold probeList
  have hr : List.range kMaxStackTraces =
      0 :: List.map Nat.succ (List.range 2047) := by
    rw [show kMaxStackTraces = 2047 + 1 from rfl]
    exact List.range_succ_eq_map 2047
  rw [hr, List.map_cons, List.map_map]
  rfl

/-- Every slot index occurs in the probe sequence: probing `j = 0 .. 2047`
visits all residues modulo `kMaxStackTraces`. -/
theorem mem_probeList (h : Nat) (idx : Fin kMaxStackTraces) :
    idx ∈ probeList h := by
  unfold probeList
  refine List.mem_map.mpr
    ⟨(idx.val + kMaxStackTraces - h % kMaxStackTraces) % kMaxStackTraces,
      List.mem_range.mpr (Nat.mod_lt _ (by decide)), ?_⟩
  have hlt := idx.isLt
  apply Fin.ext
  unfold probeIdx
  simp only [kMaxStackTraces] at *
  omega

/-- Adding a trace to the reset multiset installs it, with count 1, at the
first probe position. -/
theorem asmAdd_fresh (t : List CallFrame) :
    asmAdd asmEmpty t =
      (true, Function.update asmEmpty (probeIdx (CalculateHash t) 0)
        { count := 1, frames := t }) := by
  unfold asmAdd
  rw [probeList_eq_cons, addLoop_cons]
  simp [asmEmpty]

/-- Adding a trace `t` again, when the only occupied slot is the first probe
position holding `t` with a positive count, bumps that count. -/
theorem asmAdd_bump (t : List CallFrame) (c : Int) (hc : 0 < c) :
    asmAdd (Function.update asmEmpty (probeIdx (CalculateHash t) 0)
        { count := c, frames := t }) t =
      (true, Function.update asmEmpty (probeIdx (CalculateHash t) 0)
        { count := c + 1, frames := t }) := by
  unfold asmAdd
  rw [probeList_eq_cons, addLoop_cons, Function.update_same]
  dsimp only
  rw [if_neg (by omega), if_neg (by unfold kTraceCountLocked; omega),
    if_pos (tracesMatch_refl t), Function.update_idem]

/-- Repeatedly adding `t` to a state whose only occupied slot is the first
probe position holding `t` keeps succeeding and accumulates the count. -/
theorem addRepeat_single_slot (t : List CallFrame) (k : Nat) :
    ∀ c : Int, 0 < c →
      addRepeat (Function.update asmEmpty (probeIdx (CalculateHash t) 0)
          { count := c, frames := t }) t k =
        (true, Function.update asmEmpty (probeIdx (CalculateHash t) 0)
          { count := c + k, frames := t }) := by
  induction k with
  | zero =>
    intro c hc
    simp [addRepeat]
  | succ k ih =>
    intro c hc
    have hcast : c + 1 + (k : Int) = c + ((k + 1 : Nat) : Int) := by
      push_cast
      ring
    simp only [addRepeat]
    rw [asmAdd_bump t c hc]
    rw [ih (c + 1) (by omega)]
    rw [hcast]
    rfl

/-- Adding the same trace `k ≥ 1` times to the reset multiset: every `Add`
returns true, and the final state has exactly one occupied slot, holding `t`
with count `k`. -/
theorem addRepeat_fresh (t : List CallFrame) (k : Nat) (hk : 0 < k) :
    addRepeat asmEmpty t k =
      (true, Function.update asmEmpty (probeIdx (CalculateHash t) 0)
        { count := (k : Int), frames := t }) := by
  cases k with
  | zero => omega
  | succ k =>
    have hcast : (1 : Int) + (k : Int) = ((k + 1 : Nat) : Int) := by
      push_cast
      ring
    simp only [addRepeat]
    rw [asmAdd_fresh t]
    rw [addRepeat_single_slot t k 1 (by norm_num)]
    rw [hcast]
    rfl

/-- Extract returns nothing and changes nothing on a state in which every
slot count is nonpositive. -/
theorem asmExtract_zero (s : ASMState) (location maxFrames : Int)
    (h : ∀ idx, (s idx).count ≤ 0) :
    asmExtract s location maxFrames = ⟨0, [], none, s⟩ := by
  unfold asmExtract
  split
  · rfl
  · rw [if_pos (h _)]

/-- The harvest loop over any index list leaves a fully drained (or empty)
multiset and the accumulator unchanged. -/
theorem harvestLoop_all_zero (l : List Nat) :
    ∀ (s : ASMState) (tm : TraceMultiset), (∀ idx, (s idx).count ≤ 0) →
      harvestLoop s tm l = (tm, s) := by
  induction l with
  | nil => intro s tm _; rfl
  | cons i rest ih =>
    intro s tm hz
    show (if 0 < (asmExtract s (i : Int) (kMaxFramesToCapture : Int)).ret ∧
        0 < ((asmExtract s (i : Int) (kMaxFramesToCapture : Int)).countOut.getD 0)
      then _ else _) = _
    rw [asmExtract_zero s _ _ hz]
    norm_num
    exact ih s tm hz

/-- Harvesting a state whose only occupied slot is `i0`, holding trace `t`
(nonempty, at most `kMaxFramesToCapture` frames) with positive count `c`,
adds `(t, c)` to the accumulator once and drains the slot. -/
theorem harvestLoop_single (i0 : Fin kMaxStackTraces) (t : List CallFrame)
    (c : Int) (hc : 0 < c) (ht : t ≠ []) (hlen : t.length ≤ kMaxFramesToCapture) :
    ∀ (l : List Nat) (tm : TraceMultiset), (i0 : Nat) ∈ l →
      harvestLoop (Function.update asmEmpty i0 { count := c, frames := t }) tm l =
        (tmAdd tm t c, Function.update asmEmpty i0 { count := 0, frames := t }) := by
  intro l
  induction l with
  | nil => intro tm hmem; exact absurd hmem (List.not_mem_nil _)
  | cons i rest ih =>
    intro tm hmem
    by_cases hi : i = (i0 : Nat)
    · subst hi
      have hstep : asmExtract
          (Function.update asmEmpty i0 { count := c, frames := t })
          (((i0 : Nat)) : Int) (kMaxFramesToCapture : Int) =
          ⟨(t.length : Int), t, some c,
            Function.update asmEmpty i0 { count := 0, frames := t }⟩ := by
        have hext := asmExtract_in_range
          (Function.update asmEmpty i0 { count := c, frames := t }) i0
          (kMaxFramesToCapture : Int)
        rw [Function.update_same] at hext
        dsimp only at hext
        rw [if_neg (by omega),
          if_neg (by exact_mod_cast not_lt.mpr hlen)] at hext
        rw [hext, Function.update_idem]
        congr 1
        simp [List.take_length]
      show (if 0 < (asmExtract _ ((i0 : Nat) : Int) (kMaxFramesToCapture : Int)).ret ∧
          0 < ((asmExtract _ ((i0 : Nat) : Int) (kMaxFramesToCapture : Int)).countOut.getD 0)
        then _ else _) = _
      rw [hstep]
      have hlp : (0 : Int) < (t.length : Int) := by
        exact_mod_cast List.length_pos.mpr ht
      rw [if_pos ⟨by simpa using hlp, by simpa using hc⟩]
      dsimp only
      exact harvestLoop_all_zero rest _ _ (by
        intro idx
        rw [Function.update_apply]
        split
        · norm_num
        · norm_num [asmEmpty])
    · have hstep : asmExtract
          (Function.update asmEmpty i0 { count := c, frames := t })
          ((i : Nat) : Int) (kMaxFramesToCapture : Int) =
          ⟨0, [], none,
            Function.update asmEmpty i0 { count := c, frames := t }⟩ := by
        by_cases hrange : i < kMaxStackTraces
        · have h2 := asmExtract_in_range
            (Function.update asmEmpty i0 { count := c, frames := t })
            ⟨i, hrange⟩ (kMaxFramesToCapture : Int)
          rw [Function.update_apply,
            if_neg (fun he => hi (congrArg Fin.val he))] at h2
          rw [if_pos (by norm_num [asmEmpty])] at h2
          exact h2
        · unfold asmExtract
          rw [dif_pos (Or.inr (by exact_mod_cast Nat.le_of_not_lt hrange))]
      show (if 0 < (asmExtract _ ((i : Nat) : Int) (kMaxFramesToCapture : Int)).ret ∧
          0 < ((asmExtract _ ((i : Nat) : Int) (kMaxFramesToCapture : Int)).countOut.getD 0)
        then _ else _) = _
      rw [hstep]
      norm_num
      exact ih tm (by
        rcases List.mem_cons.mp hmem with h | h
        · exact absurd h.symm hi
        · exact h)

/-- Claim C5: a trace `t` (nonempty, at most 128 frames) added `k ≥ 1` times
to the reset `AsyncSafeTraceMultiset` has every `Add` return true (no
overflow), and harvesting into the `TraceMultiset` followed by materializing
(with `unknown_stack_count = 0`, since no `Add` failed) yields a mapping
containing `t'` with count exactly `k`, where `t'` is `t` with every code
identifier resolved to its `FuncLoc` (and the sampled line numbers kept). -/
theorem add_harvest_materialize_multiplicity (t : List CallFrame) (k : Nat)
    (dead : Nat → Option FuncLoc) (live : Nat → FuncLoc)
    (ht : t ≠ []) (hlen : t.length ≤ kMaxFramesToCapture) (hk : 0 < k) :
    (addRepeat asmEmpty t k).1 = true ∧
      dictLookup
        (PythonTraces dead live 0
          (HarvestSamples (addRepeat asmEmpty t k).2 []).1)
        (t.map (resolvedFrame dead live)) = some (k : Int) := by
  rw [addRepeat_fresh t k hk]
  refine ⟨rfl, ?_⟩
  have hharv : HarvestSamples
      (Function.update asmEmpty (probeIdx (CalculateHash t) 0)
        { count := (k : Int), frames := t }) [] =
      (tmAdd [] t (k : Int),
        Function.update asmEmpty (probeIdx (CalculateHash t) 0)
          { count := 0, frames := t }) := by
    unfold HarvestSamples
    exact harvestLoop_single _ t (k : Int) (by exact_mod_cast hk) ht hlen
      (List.range kMaxStackTraces) []
      (List.mem_range.mpr (probeIdx (CalculateHash t) 0).isLt)
  rw [hharv]
  show dictLookup (PythonTraces dead live 0 [(t, (k : Int))])
    (t.map (resolvedFrame dead live)) = some (k : Int)
  unfold PythonTraces
  rw [if_neg (by norm_num)]
  show dictLookup (dictAdd [] (t.map (resolvedFrame dead live)) (k : Int))
    (t.map (resolvedFrame dead live)) = some (k : Int)
  unfold dictAdd dictLookup
  rw [if_pos rfl]

/-- Witness for `add_harvest_materialize_multiplicity`: the single-frame trace
`[{lineno := 7, py_code := 5}]` added 3 times materializes, under a code-death
map with no entries and a constant live resolver, to an entry with count 3. -/
theorem add_harvest_materialize_multiplicity_witness :
    (addRepeat asmEmpty [{ lineno := 7, py_code := 5 }] 3).1 = true ∧
      dictLookup
        (PythonTraces (fun _ => none) (fun _ => ⟨"f", "file.py"⟩) 0
          (HarvestSamples
            (addRepeat asmEmpty [{ lineno := 7, py_code := 5 }] 3).2 []).1)
        ([{ lineno := 7, py_code := 5 }].map
          (resolvedFrame (fun _ => none) (fun _ => ⟨"f", "file.py"⟩))) =
      some (3 : Int) :=
  add_harvest_materialize_multiplicity [{ lineno := 7, py_code := 5 }] 3
    (fun _ => none) (fun _ => ⟨"f", "file.py"⟩) (by decide) (by decide)
    (by decide)

/-- Claim C6, amended: whenever `Extract(i, max_frames, frames, count)`
returns a positive number of frames, slot `i`'s count is 0 on return, the
previous count is written through the out-parameter, and the frame sequence
written to the output buffer is the first `min(num_frames, max_frames)` frames
of the sequence most recently published to slot `i` — the full sequence
exactly when `max_frames` is at least its length, a truncated prefix
otherwise. -/
theorem extract_nonempty_drains_slot (s : ASMState)
    (idx : Fin kMaxStackTraces) (maxFrames : Int)
    (h : 0 < (asmExtract s (idx : Int) maxFrames).ret) :
    ((asmExtract s (idx : Int) maxFrames).state idx).count = 0 ∧
      (asmExtract s (idx : Int) maxFrames).countOut = some ((s idx).count) ∧
      (asmExtract s (idx : Int) maxFrames).framesOut =
        (s idx).frames.take (min (s idx).frames.length maxFrames.toNat) ∧
      (((s idx).frames.length : Int) ≤ maxFrames →
        (asmExtract s (idx : Int) maxFrames).framesOut = (s idx).frames) := by
  rw [asmExtract_in_range] at h ⊢
  by_cases hc : (s idx).count ≤ 0
  · rw [if_pos hc] at h
    norm_num at h
  · rw [if_neg hc] at h ⊢
    dsimp only at h ⊢
    by_cases hgt : (((s idx).frames.length : Int) > maxFrames)
    · rw [if_pos hgt] at h ⊢
      refine ⟨by rw [Function.update_same], rfl, ?_, ?_⟩
      · congr 1
        omega
      · intro hle
        omega
    · rw [if_neg hgt] at h ⊢
      refine ⟨by rw [Function.update_same], rfl, ?_, ?_⟩
      · congr 1
        omega
      · intro _
        rw [Int.toNat_natCast, List.take_length]

set_option maxRecDepth 40000 in
/-- Witness for `extract_nonempty_drains_slot`: extracting, with
`max_frames = 128`, the slot where one `Add` published the single-frame trace
`[{lineno := 3, py_code := 4}]`. -/
theorem extract_nonempty_drains_slot_witness :
    ((asmExtract (asmAdd asmEmpty [{ lineno := 3, py_code := 4 }]).2
        ((probeIdx (CalculateHash [{ lineno := 3, py_code := 4 }]) 0 : Nat) : Int)
        128).state
      (probeIdx (CalculateHash [{ lineno := 3, py_code := 4 }]) 0)).count = 0 ∧
    (asmExtract (asmAdd asmEmpty [{ lineno := 3, py_code := 4 }]).2
        ((probeIdx (CalculateHash [{ lineno := 3, py_code := 4 }]) 0 : Nat) : Int)
        128).countOut =
      some (((asmAdd asmEmpty [{ lineno := 3, py_code := 4 }]).2
        (probeIdx (CalculateHash [{ lineno := 3, py_code := 4 }]) 0)).count) ∧
    (asmExtract (asmAdd asmEmpty [{ lineno := 3, py_code := 4 }]).2
        ((probeIdx (CalculateHash [{ lineno := 3, py_code := 4 }]) 0 : Nat) : Int)
        128).framesOut =
      (((asmAdd asmEmpty [{ lineno := 3, py_code := 4 }]).2
          (probeIdx (CalculateHash [{ lineno := 3, py_code := 4 }]) 0)).frames.take
        (min ((asmAdd asmEmpty
          [{ lineno := 3, py_code := 4 }]).2
            (probeIdx (CalculateHash [{ lineno := 3, py_code := 4 }]) 0)).frames.length
          (128 : Int).toNat)) ∧
    ((((asmAdd asmEmpty [{ lineno := 3, py_code := 4 }]).2
        (probeIdx (CalculateHash [{ lineno := 3, py_code := 4 }]) 0)).frames.length : Int) ≤ 128 →
      (asmExtract (asmAdd asmEmpty [{ lineno := 3, py_code := 4 }]).2
          ((probeIdx (CalculateHash [{ lineno := 3, py_code := 4 }]) 0 : Nat) : Int)
          128).framesOut =
        ((asmAdd asmEmpty [{ lineno := 3, py_code := 4 }]).2
          (probeIdx (CalculateHash [{ lineno := 3, py_code := 4 }]) 0)).frames) :=
  extract_nonempty_drains_slot
    (asmAdd asmEmpty [{ lineno := 3, py_code := 4 }]).2
    (probeIdx (CalculateHash [{ lineno := 3, py_code := 4 }]) 0) 128
    (by decide)

set_option maxRecDepth 40000 in
/-- Claim C6, counterexample: publish the two-frame trace
`[{1,1}, {2,2}]` via one `Add` into the reset multiset; extracting its slot
with `max_frames = 1` returns a positive frame count, yet the frame sequence
written to the output buffer is a strict prefix of — not equal to — the
sequence most recently published to that slot (which extracting with
`max_frames = 128` does return in full). -/
theorem extract_truncation_counterexample :
    0 < (asmExtract
        (asmAdd asmEmpty
          [{ lineno := 1, py_code := 1 }, { lineno := 2, py_code := 2 }]).2
        ((probeIdx (CalculateHash
          [{ lineno := 1, py_code := 1 }, { lineno := 2, py_code := 2 }]) 0 : Nat) : Int)
        1).ret ∧
      (asmExtract
        (asmAdd asmEmpty
          [{ lineno := 1, py_code := 1 }, { lineno := 2, py_code := 2 }]).2
        ((probeIdx (CalculateHash
          [{ lineno := 1, py_code := 1 }, { lineno := 2, py_code := 2 }]) 0 : Nat) : Int)
        128).framesOut =
        [{ lineno := 1, py_code := 1 }, { lineno := 2, py_code := 2 }] ∧
      (asmExtract
        (asmAdd asmEmpty
          [{ lineno := 1, py_code := 1 }, { lineno := 2, py_code := 2 }]).2
        ((probeIdx (CalculateHash
          [{ lineno := 1, py_code := 1 }, { lineno := 2, py_code := 2 }]) 0 : Nat) : Int)
        1).framesOut ≠
        [{ lineno := 1, py_code := 1 }, { lineno := 2, py_code := 2 }] := by
  refine ⟨by decide, by decide, by decide⟩

/-- If no occupied slot matches `t` and some probed slot is empty, the probe
loop installs `t` with count 1 in an empty slot and returns true. -/
theorem addLoop_install (t : List CallFrame) :
    ∀ (l : List (Fin kMaxStackTraces)) (s : ASMState),
      (∀ i, 0 ≤ (s i).count) →
      (∀ i, 0 < (s i).count → tracesMatch t ((s i).frames) = false) →
      (∃ i ∈ l, (s i).count = 0) →
      ∃ i0, (s i0).count = 0 ∧
        addLoop t s l = (true, Function.update s i0 { count := 1, frames := t }) := by
  intro l
  induction l with
  | nil =>
    rintro s _ _ ⟨i, hi, _⟩
    exact absurd hi (List.not_mem_nil _)
  | cons idx rest ih =>
    intro s hge hnm hex
    rw [addLoop_cons]
    by_cases h0 : (s idx).count = 0
    · exact ⟨idx, h0, by rw [if_pos h0]⟩
    · rw [if_neg h0,
        if_neg (by have := hge idx; unfold kTraceCountLocked; omega),
        if_neg (by
          rw [hnm idx (lt_of_le_of_ne (hge idx) (Ne.symm h0))]
          exact Bool.false_ne_true)]
      apply ih s hge hnm
      obtain ⟨i, hi, hz⟩ := hex
      rcases List.mem_cons.mp hi with h | h
      · exact absurd (h ▸ hz) h0
      · exact ⟨i, h, hz⟩

/-- If every slot is occupied and none matches `t`, the probe loop exhausts
all probes, returns false and leaves the state unchanged. -/
theorem addLoop_full (t : List CallFrame) :
    ∀ (l : List (Fin kMaxStackTraces)) (s : ASMState),
      (∀ i, 0 < (s i).count) →
      (∀ i, tracesMatch t ((s i).frames) = false) →
      addLoop t s l = (false, s) := by
  intro l
  induction l with
  | nil => intro s _ _; rfl
  | cons idx rest ih =>
    intro s hall hnm
    rw [addLoop_cons, if_neg (by have := hall idx; omega),
      if_neg (by have := hall idx; unfold kTraceCountLocked; omega),
      if_neg (by rw [hnm idx]; exact Bool.false_ne_true)]
    exact ih s hall hnm

/-- Installing a trace in an empty slot increases the number of occupied
slots by exactly one. -/
theorem occupied_card_install (s : ASMState) (i0 : Fin kMaxStackTraces)
    (hz : (s i0).count = 0) (t : List CallFrame) :
    (occupied (Function.update s i0 { count := 1, frames := t })).card =
      (occupied s).card + 1 := by
  have hins : occupied (Function.update s i0 { count := 1, frames := t }) =
      insert i0 (occupied s) := by
    unfold occupied
    ext i
    simp only [Finset.mem_filter, Finset.mem_univ, true_and, Finset.mem_insert,
      Function.update_apply]
    by_cases hi : i = i0
    · subst hi
      simp
    · simp [hi]
  rw [hins]
  exact Finset.card_insert_of_not_mem (by
    unfold occupied
    simp [Finset.mem_filter, hz])

/-- Sequentially adding pairwise-distinct traces, none of which is already
stored, succeeds while the table has room: the unknown-stack counter is
unchanged, every occupied slot stores one of the traces seen so far, and the
number of occupied slots equals the number of traces added. -/
theorem runHandlers_distinct_fill :
    ∀ (rest seen : List (List CallFrame)) (s : ASMState) (u : Nat),
      (seen ++ rest).Nodup →
      seen.length + rest.length ≤ kMaxStackTraces →
      (∀ i, (s i).count = 0 ∨ (0 < (s i).count ∧ (s i).frames ∈ seen)) →
      (occupied s).card = seen.length →
      (runHandlers (s, u) rest).2 = u ∧
        (∀ i, ((runHandlers (s, u) rest).1 i).count = 0 ∨
          (0 < ((runHandlers (s, u) rest).1 i).count ∧
            ((runHandlers (s, u) rest).1 i).frames ∈ seen ++ rest)) ∧
        (occupied (runHandlers (s, u) rest).1).card =
          seen.length + rest.length := by
  intro rest
  induction rest with
  | nil =>
    intro seen s u _ _ hinv hcard
    refine ⟨rfl, ?_, by simpa using hcard⟩
    intro i
    simpa using hinv i
  | cons tr rest ih =>
    intro seen s u hnd hlen hinv hcard
    have hnotin : tr ∉ seen := fun hmem =>
      (List.nodup_append.mp hnd).2.2 hmem (List.mem_cons_self tr rest)
    have hge : ∀ i, 0 ≤ (s i).count := by
      intro i
      rcases hinv i with h | ⟨h, _⟩ <;> omega
    have hnm : ∀ i, 0 < (s i).count → tracesMatch tr ((s i).frames) = false := by
      intro i hpos
      rcases hinv i with h | ⟨_, hmem⟩
      · omega
      · exact tracesMatch_ne (fun he => hnotin (he ▸ hmem))
    have hex : ∃ i, (s i).count = 0 := by
      by_contra hno
      push_neg at hno
      have huniv : occupied s = Finset.univ :=
        Finset.eq_univ_iff_forall.mpr (fun i => by
          unfold occupied
          simp only [Finset.mem_filter, Finset.mem_univ, true_and]
          exact hno i)
      rw [huniv] at hcard
      simp only [Finset.card_univ, Fintype.card_fin] at hcard
      simp only [List.length_cons] at hlen
      omega
    obtain ⟨iw, hw⟩ := hex
    obtain ⟨i0, hz0, heq⟩ := addLoop_install tr (probeList (CalculateHash tr)) s
      hge hnm ⟨iw, mem_probeList _ iw, hw⟩
    have hstep : handleAdd (s, u) tr =
        (Function.update s i0 { count := 1, frames := tr }, u) := by
      unfold handleAdd asmAdd
      rw [heq]
      rfl
    simp only [runHandlers]
    rw [hstep]
    have happ : seen ++ tr :: rest = (seen ++ [tr]) ++ rest := by simp
    have h1 := ih (seen ++ [tr])
      (Function.update s i0 { count := 1, frames := tr }) u
      (by rw [← happ]; exact hnd)
      (by
        simp only [List.length_append, List.length_cons, List.length_nil] at *
        omega)
      (by
        intro i
        rw [Function.update_apply]
        split
        · exact Or.inr ⟨by norm_num, by simp⟩
        · rcases hinv i with h | ⟨hp, hm⟩
          · exact Or.inl h
          · exact Or.inr ⟨hp, List.mem_append_left _ hm⟩)
      (by
        rw [occupied_card_install s i0 hz0 tr, hcard]
        simp)
    obtain ⟨ha, hb, hc2⟩ := h1
    refine ⟨ha, ?_, ?_⟩
    · intro i
      rcases hb i with h | ⟨hp, hm⟩
      · exact Or.inl h
      · exact Or.inr ⟨hp, by rw [happ]; exact hm⟩
    · rw [hc2]
      simp only [List.length_append, List.length_cons, List.length_nil]
      omega

/-- Once every slot is occupied by traces from `ts`, adding any trace not in
`ts` fails, leaves the multiset unchanged, and increments the unknown-stack
counter by exactly one per add. -/
theorem runHandlers_full_table (ts : List (List CallFrame)) (s : ASMState)
    (hall : ∀ i, 0 < (s i).count)
    (hmem : ∀ i, (s i).frames ∈ ts) :
    ∀ (extras : List (List CallFrame)), (∀ tr ∈ extras, tr ∉ ts) →
      ∀ u : Nat, runHandlers (s, u) extras = (s, u + extras.length) := by
  intro extras
  induction extras with
  | nil => intro _ u; simp [runHandlers]
  | cons tr rest ih =>
    intro hdis u
    have hnm : ∀ i, tracesMatch tr ((s i).frames) = false := fun i =>
      tracesMatch_ne (fun he => hdis tr (List.mem_cons_self tr rest) (he ▸ hmem i))
    have hadd : asmAdd s tr = (false, s) := by
      unfold asmAdd
      exact addLoop_full tr _ s hall hnm
    have hstep : handleAdd (s, u) tr = (s, u + 1) := by
      unfold handleAdd
      rw [hadd]
      rfl
    simp only [runHandlers]
    rw [hstep]
    rw [ih (fun t2 h2 => hdis t2 (List.mem_cons_of_mem tr h2)) (u + 1)]
    have hlen : u + 1 + rest.length = u + (tr :: rest).length := by
      simp only [List.length_cons]
      omega
    rw [hlen]

/-- Claim C7: sequentially adding `kMaxStackTraces` (2048) pairwise-distinct
traces from the reset state fills the table with no failed `Add`
(`unknown_stack_count` stays 0) and leaves every one of the 2048 probe-able
slots occupied; every further handler invocation with a trace distinct from
all stored ones has its `Add` probe all slots without finding room or a
match, return false, leave the multiset unchanged, and increment
`unknown_stack_count` by exactly one. -/
theorem asm_overflow_unknown_count (ts extras : List (List CallFrame))
    (hnd : ts.Nodup) (hlen : ts.length = kMaxStackTraces)
    (hdis : ∀ tr ∈ extras, tr ∉ ts) :
    (runHandlers (asmEmpty, 0) ts).2 = 0 ∧
      (∀ i, 0 < ((runHandlers (asmEmpty, 0) ts).1 i).count) ∧
      runHandlers (runHandlers (asmEmpty, 0) ts) extras =
        ((runHandlers (asmEmpty, 0) ts).1, extras.length) := by
  have h1 := runHandlers_distinct_fill ts [] asmEmpty 0 (by simpa using hnd)
    (by simpa using hlen.le) (fun i => Or.inl rfl)
    (by
      unfold occupied
      simp [asmEmpty])
  obtain ⟨hu, hinv, hcard⟩ := h1
  have hcardall : (occupied (runHandlers (asmEmpty, 0) ts).1).card =
      Fintype.card (Fin kMaxStackTraces) := by
    rw [hcard, Fintype.card_fin]
    simpa using hlen
  have huniv := Finset.eq_univ_of_card _ hcardall
  have hall : ∀ i, 0 < ((runHandlers (asmEmpty, 0) ts).1 i).count := by
    intro i
    have hi : i ∈ occupied (runHandlers (asmEmpty, 0) ts).1 :=
      huniv ▸ Finset.mem_univ i
    unfold occupied at hi
    simp only [Finset.mem_filter, Finset.mem_univ, true_and] at hi
    rcases hinv i with h | ⟨hp, _⟩
    · exact absurd h hi
    · exact hp
  have hmem : ∀ i, ((runHandlers (asmEmpty, 0) ts).1 i).frames ∈ ts := by
    intro i
    rcases hinv i with h | ⟨_, hm⟩
    · exact absurd h (by have := hall i; omega)
    · simpa using hm
  refine ⟨hu, hall, ?_⟩
  have hpair : runHandlers (asmEmpty, 0) ts =
      ((runHandlers (asmEmpty, 0) ts).1, 0) := Prod.ext rfl hu
  rw [hpair, runHandlers_full_table ts _ hall hmem extras hdis 0]
  simp

/-- Witness for `asm_overflow_unknown_count`: 2048 distinct single-frame
traces (code identifiers 0..2047) fill the table; one further distinct trace
fails and is accounted once in `unknown_stack_count`. -/
theorem asm_overflow_unknown_count_witness :
    (runHandlers (asmEmpty, 0)
      ((List.range kMaxStackTraces).map
        (fun n => [{ lineno := 0, py_code := n }]))).2 = 0 ∧
      (∀ i, 0 < ((runHandlers (asmEmpty, 0)
        ((List.range kMaxStackTraces).map
          (fun n => [{ lineno := 0, py_code := n }]))).1 i).count) ∧
      runHandlers (runHandlers (asmEmpty, 0)
          ((List.range kMaxStackTraces).map
            (fun n => [{ lineno := 0, py_code := n }])))
          [[{ lineno := -5, py_code := 5000 }]] =
        ((runHandlers (asmEmpty, 0)
          ((List.range kMaxStackTraces).map
            (fun n => [{ lineno := 0, py_code := n }]))).1,
          ([[{ lineno := -5, py_code := 5000 }]] :
            List (List CallFrame)).length) :=
  asm_overflow_unknown_count
    ((List.range kMaxStackTraces).map
      (fun n => [{ lineno := 0, py_code := n }]))
    [[{ lineno := -5, py_code := 5000 }]]
    (List.Nodup.map (fun a b hab => by simpa using hab)
      (List.nodup_range kMaxStackTraces))
    (by rw [List.length_map, List.length_range])
    (by
      intro tr htr
      simp only [List.mem_singleton] at htr
      subst htr
      intro hmem
      simp only [List.mem_map, List.mem_range] at hmem
      obtain ⟨n, _, hn⟩ := hmem
      simp at hn)

/-- Converting a nanosecond count to a timespec and back is exact. -/
theorem toNanos_nanosToTimeSpec (n : Int) : toNanos (NanosToTimeSpec n) = n := by
  unfold toNanos NanosToTimeSpec kNanosPerSecond
  dsimp only
  omega

/-- TimeAdd keeps the nanosecond field in `[0, 10^9]` when both inputs have
their nanosecond fields in `[0, 10^9]`. -/
theorem timeAdd_nsec_bound (t1 t2 : Timespec)
    (h1 : 0 ≤ t1.tv_nsec ∧ t1.tv_nsec ≤ 1000000000)
    (h2 : 0 ≤ t2.tv_nsec ∧ t2.tv_nsec ≤ 1000000000) :
    0 ≤ (TimeAdd t1 t2).tv_nsec ∧ (TimeAdd t1 t2).tv_nsec ≤ 1000000000 := by
  unfold TimeAdd kNanosPerSecond
  dsimp only
  split <;> dsimp only <;> omega

/-- On the timespec shapes produced by the harvest loop (left operand with
nanoseconds in `[0, 10^9]`, right operand with nanoseconds in `(0, 10^9]`),
the lexicographic `TimeLessThan` agrees with comparison of total nanosecond
values. -/
theorem timeLessThan_iff_toNanos (a b : Timespec)
    (ha1 : 0 ≤ a.tv_nsec) (ha2 : a.tv_nsec ≤ 1000000000)
    (hb1 : 0 < b.tv_nsec) (hb2 : b.tv_nsec ≤ 1000000000) :
    TimeLessThan a b = true ↔ toNanos a < toNanos b := by
  unfold TimeLessThan toNanos kNanosPerSecond
  simp only [Bool.or_eq_true, Bool.and_eq_true, decide_eq_true_eq]
  omega

/-- The timer comparand `TimeAdd now laps` of `AlmostThere`, with
`laps = {0, 2 * 10^8}`, has its nanosecond field in `(0, 10^9]` whenever `now`
has its nanosecond field in `[0, 10^9]`. -/
theorem almostThere_comparand_nsec (now : Timespec)
    (h1 : 0 ≤ now.tv_nsec) (h2 : now.tv_nsec ≤ 1000000000) :
    0 < (TimeAdd now ⟨0 * 2, 100 * 1000 * 1000 * 2⟩).tv_nsec ∧
      (TimeAdd now ⟨0 * 2, 100 * 1000 * 1000 * 2⟩).tv_nsec ≤ 1000000000 := by
  unfold TimeAdd kNanosPerSecond
  dsimp only
  split <;> dsimp only <;> omega

/-- With the 100 ms flush interval, `AlmostThere(finish, flush_interval)`
holds exactly when less than two flush intervals of nanoseconds remain
between `now` and `finish`. -/
theorem almostThere_iff (finish now : Timespec)
    (hf1 : 0 ≤ finish.tv_nsec) (hf2 : finish.tv_nsec ≤ 1000000000)
    (hn1 : 0 ≤ now.tv_nsec) (hn2 : now.tv_nsec ≤ 1000000000) :
    AlmostThere finish flushInterval now = true ↔
      toNanos finish < toNanos now + 2 * 100000000 := by
  unfold AlmostThere flushInterval
  dsimp only
  have hb := almostThere_comparand_nsec now hn1 hn2
  rw [timeLessThan_iff_toNanos finish _ hf1 hf2 hb.1 hb.2, TimeAdd_toNanos]
  unfold toNanos kNanosPerSecond
  dsimp only
  omega

/-- Characterization of the harvest loop under the idealized clock: starting
at `now`, it performs exactly `n` (sleep 100 ms; flush) iterations, where `n`
is the first iteration count at which less than two flush intervals remain
before `finish`. -/
theorem harvestLoopEvents_char (n : Nat) :
    ∀ (fuel : Nat) (now finish : Timespec),
      0 ≤ now.tv_nsec → now.tv_nsec ≤ 1000000000 →
      0 ≤ finish.tv_nsec → finish.tv_nsec ≤ 1000000000 →
      toNanos finish < toNanos now + n * 100000000 + 2 * 100000000 →
      (∀ m : Nat, m < n →
        ¬ toNanos finish < toNanos now + m * 100000000 + 2 * 100000000) →
      n ≤ fuel →
      harvestLoopEvents finish flushInterval fuel now =
        harvestPattern n flushInterval := by
  induction n with
  | zero =>
    intro fuel now finish hn1 hn2 hf1 hf2 hstop hmin hfuel
    cases fuel with
    | zero => rfl
    | succ f =>
      show (if AlmostThere finish flushInterval now then [] else _) = _
      rw [if_pos ((almostThere_iff finish now hf1 hf2 hn1 hn2).mpr
        (by omega))]
      rfl
  | succ n ih =>
    intro fuel now finish hn1 hn2 hf1 hf2 hstop hmin hfuel
    cases fuel with
    | zero => omega
    | succ f =>
      show (if AlmostThere finish flushInterval now then [] else
        CollectEvent.sleepFor flushInterval :: CollectEvent.flush ::
          harvestLoopEvents finish flushInterval f (TimeAdd now flushInterval)) = _
      rw [if_neg (by
        intro hAT
        have hlt := (almostThere_iff finish now hf1 hf2 hn1 hn2).mp hAT
        have := hmin 0 (by omega)
        omega)]
      have hnow2 : 0 ≤ (TimeAdd now flushInterval).tv_nsec ∧
          (TimeAdd now flushInterval).tv_nsec ≤ 1000000000 :=
        timeAdd_nsec_bound now flushInterval ⟨hn1, hn2⟩
          ⟨by norm_num [flushInterval], by norm_num [flushInterval]⟩
      have htot : toNanos (TimeAdd now flushInterval) =
          toNanos now + 100000000 := by
        rw [TimeAdd_toNanos]
        norm_num [toNanos, flushInterval, kNanosPerSecond]
      rw [ih f (TimeAdd now flushInterval) finish hnow2.1 hnow2.2 hf1 hf2
        (by rw [htot]; push_cast at hstop ⊢; omega)
        (by
          intro m hm
          rw [htot]
          have := hmin (m + 1) (by omega)
          push_cast at this ⊢
          omega)
        (by omega)]
      simp [harvestPattern, List.replicate_succ]

/-- Claim C8: under an idealized monotonic clock, the harvest section of
`CPUProfiler::Collect` with nonnegative duration performs exactly `n`
iterations of (sleep `flush_interval` = 100 ms; flush) — `n` being minimal
with `duration < n * flush_interval + 2 * flush_interval`, i.e. the loop
terminates exactly when less than `2 * flush_interval` remains before the
deadline — then sleeps until the exact deadline, stops the timer, sleeps one
more flush interval past the deadline, and flushes once more. -/
theorem collect_harvest_loop_timing (fuel n : Nat) (now : Timespec)
    (durationNanos : Int)
    (hn1 : 0 ≤ now.tv_nsec) (hn2 : now.tv_nsec < 1000000000)
    (hdur : 0 ≤ durationNanos)
    (hstop : durationNanos < n * 100000000 + 2 * 100000000)
    (hmin : ∀ m : Nat, m < n →
      ¬ durationNanos < m * 100000000 + 2 * 100000000)
    (hfuel : n ≤ fuel) :
    collectEvents fuel now durationNanos =
      harvestPattern n flushInterval ++
        [CollectEvent.sleepUntil (TimeAdd now (NanosToTimeSpec durationNanos)),
          CollectEvent.stopTimer,
          CollectEvent.sleepUntil
            (TimeAdd (TimeAdd now (NanosToTimeSpec durationNanos))
              flushInterval),
          CollectEvent.flush] := by
  unfold collectEvents
  dsimp only
  congr 1
  have hts : 0 ≤ (NanosToTimeSpec durationNanos).tv_nsec ∧
      (NanosToTimeSpec durationNanos).tv_nsec ≤ 1000000000 := by
    unfold NanosToTimeSpec kNanosPerSecond
    dsimp only
    omega
  have hf := timeAdd_nsec_bound now (NanosToTimeSpec durationNanos)
    ⟨hn1, by omega⟩ hts
  apply harvestLoopEvents_char n fuel now _ hn1 (by omega) hf.1 hf.2 ?_ ?_ hfuel
  · rw [TimeAdd_toNanos, toNanos_nanosToTimeSpec]
    omega
  · intro m hm
    rw [TimeAdd_toNanos, toNanos_nanosToTimeSpec]
    have := hmin m hm
    omega

/-- Witness for `collect_harvest_loop_timing`: a 500 ms session starting at
`now = {0, 0}` runs exactly 4 sleep-and-flush iterations (at 400 ms, less
than 200 ms remain) before the deadline sequence. -/
theorem collect_harvest_loop_timing_witness :
    collectEvents 10 ⟨0, 0⟩ 500000000 =
      harvestPattern 4 flushInterval ++
        [CollectEvent.sleepUntil (TimeAdd ⟨0, 0⟩ (NanosToTimeSpec 500000000)),
          CollectEvent.stopTimer,
          CollectEvent.sleepUntil
            (TimeAdd (TimeAdd ⟨0, 0⟩ (NanosToTimeSpec 500000000))
              flushInterval),
          CollectEvent.flush] :=
  collect_harvest_loop_timing 10 4 ⟨0, 0⟩ 500000000 (by norm_num) (by norm_num)
    (by norm_num) (by norm_num) (by decide) (by norm_num)
